import Mathlib

/- Verification development for the reticode toolchain sources.

   The embedding covers:
   - the assembler of asreti.c (the single pass, one character lookahead
     parser of its main function, lines 128 to 569), including the exact
     mnemonic trie, register and immediate parsing with overflow checks,
     and the little endian output bytes;
   - the emulator loop of emreti.c (the second main function, lines 587
     to 1184): decode of the bit fields, the dispatch switch, the write
     phase with validity shadow tracking, and the loop exits;
   - disassemble_reti_code from the disreti.h copy embedded at the end of
     emreti.c (lines 1195 to 1353), under NDEBUG semantics as configured
     by the default build flags;
   - the command line argument loops of asreti.c and decbin.c.

   Machine words are natural numbers below 2 ^ 32; wraparound is written
   explicitly as remainders wherever the C sources compute in 32-bit
   unsigned arithmetic. -/

namespace Reticode

/- ------------------------------------------------------------------ -/
/- Instruction prefix constants, from the enum code of asreti.c.       -/
/- ------------------------------------------------------------------ -/

def LOAD : Nat := 0x40000000
def LOADIN1 : Nat := 0x50000000
def LOADIN2 : Nat := 0x60000000
def LOADI : Nat := 0x70000000
def STORE : Nat := 0x80000000
def STOREIN1 : Nat := 0x90000000
def STOREIN2 : Nat := 0xA0000000
def MOVE : Nat := 0xB0000000
def SUBI : Nat := 0x08000000
def ADDI : Nat := 0x0C000000
def OPLUSI : Nat := 0x10000000
def ORI : Nat := 0x14000000
def ANDI : Nat := 0x18000000
def SUB : Nat := 0x28000000
def ADD : Nat := 0x2C000000
def OPLUS : Nat := 0x30000000
def OR : Nat := 0x34000000
def AND : Nat := 0x38000000
def NOP : Nat := 0xC0000000
def JUMPGT : Nat := 0xC8000000
def JUMPEQ : Nat := 0xD0000000
def JUMPGE : Nat := 0xD8000000
def JUMPLT : Nat := 0xE0000000
def JUMPNE : Nat := 0xE8000000
def JUMPLE : Nat := 0xF0000000
def JUMP : Nat := 0xF8000000

/- ------------------------------------------------------------------ -/
/- The assembler of asreti.c.                                          -/
/- ------------------------------------------------------------------ -/

/-- The parse and fatal errors the assembler can raise; each constructor
corresponds to one error message of asreti.c.  outOfFuel is an artifact
of the fuelled loop below and is never reached when the fuel is at least
the input length plus one. -/
inductive AsmErr where
  | missingNewlineAfterCR
  | unexpectedEofInComment
  | unexpectedEmptyLine
  | unexpectedCharacter
  | invalidInstruction
  | invalidSource
  | invalidDestination
  | invalidImmediate
  | expectedNewline
  | outOfFuel
  deriving DecidableEq, Repr

/-- One character of lookahead as delivered by read_char of asreti.c: a
carriage return must be followed by a newline, which is the character
actually returned; end of input is none. -/
def readChar : List Char → Except AsmErr (Option Char × List Char)
  | [] => .ok (none, [])
  | c :: cs =>
    if c = '\r' then
      match cs with
      | [] => .error .missingNewlineAfterCR
      | c1 :: cs1 =>
        if c1 = '\n' then .ok (some '\n', cs1) else .error .missingNewlineAfterCR
    else .ok (some c, cs)

/-- Mirrors the for loops of asreti.c that match a fixed run of expected
characters, failing with the given error on the first mismatch. -/
def expectChars (e : AsmErr) : List Char → List Char → Except AsmErr (List Char)
  | [], cs => .ok cs
  | p :: ps, cs =>
    match readChar cs with
    | .error e1 => .error e1
    | .ok (c, cs1) => if c = some p then expectChars e ps cs1 else .error e

/-- Result of the mnemonic switch of asreti.c: the opcode word
accumulated so far, the three flags that drive the rest of the line, the
current lookahead character and the remaining input. -/
structure MState where
  code : Nat
  parseSource : Bool
  parseDestination : Bool
  parseImmediate : Bool
  ch : Option Char
  rest : List Char
  deriving Repr

/-- The case A branch of the mnemonic switch (ADD, ADDI, AND, ANDI). -/
def mnemonicA (cs : List Char) : Except AsmErr MState := do
  let (c1, cs) ← readChar cs
  if c1 = some 'D' then
    let (c2, cs) ← readChar cs
    if c2 = some 'D' then
      let (c3, cs) ← readChar cs
      if c3 = some ' ' then
        pure ⟨ADD, false, true, true, some ' ', cs⟩
      else if c3 = some 'I' then
        let (c4, cs) ← readChar cs
        pure ⟨ADDI, false, true, true, c4, cs⟩
      else
        throw .invalidInstruction
    else
      throw .invalidInstruction
  else if c1 = some 'N' then
    let (c2, cs) ← readChar cs
    if c2 = some 'D' then
      let (c3, cs) ← readChar cs
      if c3 = some ' ' then
        pure ⟨AND, false, true, true, some ' ', cs⟩
      else if c3 = some 'I' then
        let (c4, cs) ← readChar cs
        pure ⟨ANDI, false, true, true, c4, cs⟩
      else
        throw .invalidInstruction
    else
      throw .invalidInstruction
  else
    throw .invalidInstruction

/-- The case J branch of the mnemonic switch.  The branch taken for a
leading comparison character tests the same lookahead c1 again without
reading a new character, exactly as the source does at asreti.c lines 269
to 276, so its two inner assignments are unreachable. -/
def mnemonicJ (cs : List Char) : Except AsmErr MState := do
  let cs ← expectChars .invalidInstruction ['U', 'M', 'P'] cs
  let (c1, cs) ← readChar cs
  if c1 = some ' ' then
    pure ⟨JUMP, false, false, true, some ' ', cs⟩
  else if c1 = some '>' then
    let (c2, cs) ← readChar cs
    if c2 = some ' ' then
      pure ⟨JUMPGT, false, false, true, some ' ', cs⟩
    else if c2 = some '=' then
      let (c3, cs) ← readChar cs
      pure ⟨JUMPGE, false, false, true, c3, cs⟩
    else
      throw .invalidInstruction
  else if c1 = some '=' then
    let (c2, cs) ← readChar cs
    pure ⟨JUMPEQ, false, false, true, c2, cs⟩
  else if c1 = some '<' then
    if c1 = some ' ' then
      pure ⟨JUMPLT, false, false, true, c1, cs⟩
    else if c1 = some '=' then
      let (c2, cs) ← readChar cs
      pure ⟨JUMPLE, false, false, true, c2, cs⟩
    else
      throw .invalidInstruction
  else if c1 = some '!' then
    let (c2, cs) ← readChar cs
    if c2 = some '=' then
      let (c3, cs) ← readChar cs
      pure ⟨JUMPNE, false, false, true, c3, cs⟩
    else
      throw .invalidInstruction
  else
    throw .invalidInstruction

/-- The case L branch of the mnemonic switch.  When the character after
LOADI is not a blank the source reads one further character before
testing for N (asreti.c lines 300 to 302), and that extra read is kept
here faithfully. -/
def mnemonicL (cs : List Char) : Except AsmErr MState := do
  let cs ← expectChars .invalidInstruction ['O', 'A', 'D'] cs
  let (c1, cs) ← readChar cs
  if c1 = some ' ' then
    pure ⟨LOAD, false, true, true, some ' ', cs⟩
  else if c1 = some 'I' then
    let (c2, cs) ← readChar cs
    if c2 = some ' ' then
      pure ⟨LOADI, false, true, true, some ' ', cs⟩
    else
      let (c3, cs) ← readChar cs
      if c3 = some 'N' then
        let (c4, cs) ← readChar cs
        if c4 = some '1' then
          let (c5, cs) ← readChar cs
          pure ⟨LOADIN1, false, true, true, c5, cs⟩
        else if c4 = some '2' then
          let (c5, cs) ← readChar cs
          pure ⟨LOADIN2, false, true, true, c5, cs⟩
        else
          throw .invalidInstruction
      else
        throw .invalidInstruction
  else
    throw .invalidInstruction

/-- The case M branch of the mnemonic switch (MOVE). -/
def mnemonicM (cs : List Char) : Except AsmErr MState := do
  let cs ← expectChars .invalidInstruction ['O', 'V', 'E'] cs
  let (c1, cs) ← readChar cs
  pure ⟨MOVE, true, true, false, c1, cs⟩

/-- The case N branch of the mnemonic switch (NOP). -/
def mnemonicN (cs : List Char) : Except AsmErr MState := do
  let cs ← expectChars .invalidInstruction ['O', 'P'] cs
  let (c1, cs) ← readChar cs
  pure ⟨NOP, false, false, false, c1, cs⟩

/-- The case O branch of the mnemonic switch (OPLUS, OPLUSI, OR, ORI). -/
def mnemonicO (cs : List Char) : Except AsmErr MState := do
  let (c1, cs) ← readChar cs
  if c1 = some 'P' then
    let cs ← expectChars .invalidInstruction ['L', 'U', 'S'] cs
    let (c2, cs) ← readChar cs
    if c2 = some ' ' then
      pure ⟨OPLUS, false, true, true, some ' ', cs⟩
    else if c2 = some 'I' then
      let (c3, cs) ← readChar cs
      pure ⟨OPLUSI, false, true, true, c3, cs⟩
    else
      throw .invalidInstruction
  else if c1 = some 'R' then
    let (c2, cs) ← readChar cs
    if c2 = some ' ' then
      pure ⟨OR, false, true, true, some ' ', cs⟩
    else if c2 = some 'I' then
      let (c3, cs) ← readChar cs
      pure ⟨ORI, false, true, true, c3, cs⟩
    else
      throw .invalidInstruction
  else
    throw .invalidInstruction

/-- The case S branch of the mnemonic switch (STORE, STOREIN1, STOREIN2,
SUB, SUBI); the store branch turns the destination flag off. -/
def mnemonicS (cs : List Char) : Except AsmErr MState := do
  let (c1, cs) ← readChar cs
  if c1 = some 'T' then
    let cs ← expectChars .invalidInstruction ['O', 'R', 'E'] cs
    let (c2, cs) ← readChar cs
    if c2 = some ' ' then
      pure ⟨STORE, false, false, true, some ' ', cs⟩
    else if c2 = some 'I' then
      let (c3, cs) ← readChar cs
      if c3 = some 'N' then
        let (c4, cs) ← readChar cs
        if c4 = some '1' then
          let (c5, cs) ← readChar cs
          pure ⟨STOREIN1, false, false, true, c5, cs⟩
        else if c4 = some '2' then
          let (c5, cs) ← readChar cs
          pure ⟨STOREIN2, false, false, true, c5, cs⟩
        else
          throw .invalidInstruction
      else
        throw .invalidInstruction
    else
      throw .invalidInstruction
  else if c1 = some 'U' then
    let (c2, cs) ← readChar cs
    if c2 = some 'B' then
      let (c3, cs) ← readChar cs
      if c3 = some ' ' then
        pure ⟨SUB, false, true, true, some ' ', cs⟩
      else if c3 = some 'I' then
        let (c4, cs) ← readChar cs
        pure ⟨SUBI, false, true, true, c4, cs⟩
      else
        throw .invalidInstruction
    else
      throw .invalidInstruction
  else
    throw .invalidInstruction

/-- Parse a source register name, mirroring the block guarded by
parse_source in asreti.c (lines 411 to 441); every mismatch inside the
name raises the invalid source register error. -/
def parseSrcReg (cs : List Char) : Except AsmErr (Nat × List Char) := do
  let (c, cs) ← readChar cs
  if c = some 'A' then
    let cs ← expectChars .invalidSource ['C', 'C'] cs
    pure (3, cs)
  else if c = some 'I' then
    let (c1, cs) ← readChar cs
    if c1 = some 'N' then
      let (c2, cs) ← readChar cs
      if c2 = some '1' then
        pure (1, cs)
      else if c2 = some '2' then
        pure (2, cs)
      else
        throw .invalidSource
    else
      throw .invalidSource
  else if c = some 'P' then
    let (c1, cs) ← readChar cs
    if c1 = some 'C' then
      pure (0, cs)
    else
      throw .invalidSource
  else
    throw .invalidSource

/-- Parse a destination register name, mirroring the block guarded by
parse_destination in asreti.c (lines 443 to 476).  The final fallthrough
of the source raises invalid source register there (line 473), and that
is kept here. -/
def parseDstReg (cs : List Char) : Except AsmErr (Nat × List Char) := do
  let (c, cs) ← readChar cs
  if c = some 'A' then
    let cs ← expectChars .invalidDestination ['C', 'C'] cs
    pure (3, cs)
  else if c = some 'I' then
    let (c1, cs) ← readChar cs
    if c1 = some 'N' then
      let (c2, cs) ← readChar cs
      if c2 = some '1' then
        pure (1, cs)
      else if c2 = some '2' then
        pure (2, cs)
      else
        throw .invalidDestination
    else
      throw .invalidDestination
  else if c = some 'P' then
    let (c1, cs) ← readChar cs
    if c1 = some 'C' then
      pure (0, cs)
    else
      throw .invalidDestination
  else
    throw .invalidSource

/-- The numeric value of a decimal digit character. -/
def digitVal (c : Char) : Nat := c.toNat - 48

/-- The decimal accumulation loops of asreti.c, with the overflow test
made before the multiplication and the one made after adding the digit.
Returns the accumulated value, the lookahead that ended the loop and the
remaining input. -/
def accDecimal (maxImm : Nat) : Nat → List Char → Except AsmErr (Nat × Option Char × List Char)
  | i, [] => .ok (i, none, [])
  | i, c :: cs =>
    if c = '\r' then
      match cs with
      | [] => .error .missingNewlineAfterCR
      | c1 :: cs1 =>
        if c1 = '\n' then .ok (i, some '\n', cs1) else .error .missingNewlineAfterCR
    else if c.isDigit then
      if maxImm / 10 < i then .error .invalidImmediate
      else if maxImm - digitVal c < i * 10 then .error .invalidImmediate
      else accDecimal maxImm (i * 10 + digitVal c) cs
    else .ok (i, some c, cs)

/-- Skip the body of a comment through the closing newline, mirroring the
comment loops of asreti.c. -/
def skipComment : List Char → Except AsmErr (List Char)
  | [] => .error .unexpectedEofInComment
  | c :: cs =>
    if c = '\r' then
      match cs with
      | [] => .error .missingNewlineAfterCR
      | c1 :: cs1 =>
        if c1 = '\n' then .ok cs1 else .error .missingNewlineAfterCR
    else if c = '\n' then .ok cs
    else skipComment cs

/-- Skip blanks and tabs, mirroring the white space loop after a complete
instruction; delivers the first character that is neither. -/
def skipWSList : List Char → Except AsmErr (Option Char × List Char)
  | [] => .ok (none, [])
  | c :: cs =>
    if c = '\r' then
      match cs with
      | [] => .error .missingNewlineAfterCR
      | c1 :: cs1 =>
        if c1 = '\n' then .ok (some '\n', cs1) else .error .missingNewlineAfterCR
    else if c = ' ' then skipWSList cs
    else if c = '\t' then skipWSList cs
    else .ok (some c, cs)

/-- Entry of the white space skipping that starts from the current
lookahead. -/
def skipWS (ch : Option Char) (cs : List Char) : Except AsmErr (Option Char × List Char) :=
  if ch = some ' ' ∨ ch = some '\t' then skipWSList cs else .ok (ch, cs)

/-- After the mnemonic switch: parse source and destination registers and
the immediate as dictated by the flags, check the token terminator, skip
trailing white space and an optional comment, and require the newline,
mirroring asreti.c lines 408 to 549.  Returns the encoded word and the
input left after the consumed newline.  The negative immediate is stored
as the bitwise complement plus one masked to 24 bits, and the source ors
the immediate into the word a second time after the branch (lines 506 and
523), which is kept here. -/
def finishInstruction (m : MState) : Except AsmErr (Nat × List Char) := do
  let code := m.code
  let ch := m.ch
  let cs := m.rest
  let (code, ch, cs) ←
    if m.parseSource then do
      if ch = some ' ' then
        let (s, cs) ← parseSrcReg cs
        let (c1, cs) ← readChar cs
        pure (code ||| (s <<< 26), c1, cs)
      else
        throw .invalidInstruction
    else
      pure (code, ch, cs)
  let (code, ch, cs) ←
    if m.parseDestination then do
      if ch = some ' ' then
        let (d, cs) ← parseDstReg cs
        let (c1, cs) ← readChar cs
        pure (code ||| (d <<< 24), c1, cs)
      else
        if m.parseSource then throw .invalidSource else throw .invalidInstruction
    else
      pure (code, ch, cs)
  let (code, ch, cs) ←
    if m.parseImmediate then do
      if ch = some ' ' then
        let (c1, cs) ← readChar cs
        if c1 = some '-' then
          let (c2, cs) ← readChar cs
          match c2 with
          | some c =>
            if c = '0' ∨ ¬ c.isDigit then
              throw .invalidImmediate
            else
              let (i, ch, cs) ← accDecimal 0x800000 (digitVal c) cs
              let i := ((0xffffffff - i) + 1) % 4294967296 &&& 0xffffff
              pure (code ||| i ||| i, ch, cs)
          | none => throw .invalidImmediate
        else
          match c1 with
          | some c =>
            if c.isDigit then
              let (i, ch, cs) ← accDecimal 0xffffff (digitVal c) cs
              pure (code ||| i, ch, cs)
            else
              throw .invalidImmediate
          | none => throw .invalidImmediate
      else
        if m.parseDestination then throw .invalidDestination else throw .invalidInstruction
    else
      pure (code, ch, cs)
  if ch = some ' ' ∨ ch = some '\t' ∨ ch = some ';' ∨ ch = some '\n' then
    let (ch, cs) ← skipWS ch cs
    if ch = some ';' then
      let cs ← skipComment cs
      pure (code, cs)
    else if ch = some '\n' then
      pure (code, cs)
    else
      throw .expectedNewline
  else
    if m.parseImmediate then throw .invalidImmediate
    else if m.parseDestination then throw .invalidDestination
    else throw .invalidSource

/-- The main loop of asreti.c: skip leading blanks and full line
comments, dispatch on the first character of a mnemonic and emit one
encoded word per parsed instruction.  Each iteration consumes at least
one input character, so fuel of the input length plus one never runs
out. -/
def asretiLoop : Nat → List Char → Except AsmErr (List Nat)
  | 0, _ => .error .outOfFuel
  | fuel + 1, cs =>
    match readChar cs with
    | .error e => .error e
    | .ok (c, cs) =>
      match c with
      | none => .ok []
      | some c1 =>
        if c1 = ' ' ∨ c1 = '\t' then asretiLoop fuel cs
        else if c1 = ';' then
          match skipComment cs with
          | .error e => .error e
          | .ok cs => asretiLoop fuel cs
        else if c1 = '\n' then .error .unexpectedEmptyLine
        else
          match
            (if c1 = 'A' then mnemonicA cs
             else if c1 = 'J' then mnemonicJ cs
             else if c1 = 'L' then mnemonicL cs
             else if c1 = 'M' then mnemonicM cs
             else if c1 = 'N' then mnemonicN cs
             else if c1 = 'O' then mnemonicO cs
             else if c1 = 'S' then mnemonicS cs
             else .error .unexpectedCharacter) with
          | .error e => .error e
          | .ok m =>
            match finishInstruction m with
            | .error e => .error e
            | .ok (code, cs) =>
              match asretiLoop fuel cs with
              | .error e => .error e
              | .ok ws => .ok (code :: ws)

/-- Assemble a complete source text into the list of encoded words. -/
def asreti (s : String) : Except AsmErr (List Nat) :=
  asretiLoop (s.length + 1) s.toList

/-- The four bytes written for one encoded word, in little endian order,
mirroring the output loop of asreti.c (lines 553 to 557). -/
def leBytes (w : Nat) : List Nat :=
  [w % 256, w / 256 % 256, w / 65536 % 256, w / 16777216 % 256]

/- ------------------------------------------------------------------ -/
/- disassemble_reti_code, from the disreti.h copy in emreti.c.         -/
/- ------------------------------------------------------------------ -/

/-- The NUL character that terminates C strings. -/
def nulChar : Char := Char.ofNat 0

/-- Model of memcpy from a C string literal: the literal consists of its
characters followed by the terminating NUL, and exactly n bytes of it
are copied.  The recorded lengths in the source are sometimes one short
of or one past the real length of the name, so n is taken literally. -/
def mcopy (s : String) (n : Nat) : List Char :=
  (s.toList ++ [nulChar]).take n

/-- The observable contents of a C character buffer when printed:
everything before the first NUL. -/
def cString (buf : List Char) : String :=
  (buf.takeWhile (fun c => c ≠ nulChar)).asString

/-- Lower case hexadecimal digits as printed by the 0x%0x format. -/
def hexString (n : Nat) : String :=
  (Nat.toDigits 16 n).asString

/-- The signed reading of the 24-bit immediate computed by the
disassembler as (int)(immediate_code << 8) >> 8. -/
def signed24 (imm : Nat) : Int :=
  if 8388608 ≤ imm then (imm : Int) - 16777216 else (imm : Int)

/-- The name selection and decode flags of the first block of
disassemble_reti_code: name, recorded length, decode_source,
decode_destination, decode_immediate, hexadecimal, positive, and the
legality result. -/
structure DisInfo where
  instruction : String
  len : Nat
  decodeSource : Bool
  decodeDestination : Bool
  decodeImmediate : Bool
  hexadecimal : Bool
  positive : Bool
  res : Bool
  deriving Repr

/-- The first block of disassemble_reti_code (emreti.c lines 1196 to
1291), mirrored exactly: for the store class the next top two bits are
taken from code >> 28 without masking, so the test against 3 and the
tests against 0 and 1 can never succeed and every class 10 word falls
into the STOREIN2 row while keeping decode_destination set; the OPLUSI
row records length 5, the JUMP= and ILLEGAL rows record one byte more
than the name; the JUMP<= row repeats the comparison of the NOP row
against 0 and is dead, so its words fall through to the JUMP row. -/
def classifyRetiCode (code : Nat) : DisInfo :=
  let topTwoBits := code / 2 ^ 30
  if topTwoBits = 1 then
    let nextTopTwoBits := code / 2 ^ 28 % 4
    if nextTopTwoBits = 0 then ⟨"LOAD", 4, false, true, true, false, true, true⟩
    else if nextTopTwoBits = 1 then ⟨"LOADIN1", 7, false, true, true, false, true, true⟩
    else if nextTopTwoBits = 2 then ⟨"LOADIN2", 7, false, true, true, false, true, true⟩
    else ⟨"LOADI", 5, false, true, true, false, true, true⟩
  else if topTwoBits = 2 then
    let nextTopTwoBits := code / 2 ^ 28
    if nextTopTwoBits = 3 then ⟨"MOVE", 4, true, true, false, false, true, true⟩
    else
      if nextTopTwoBits = 0 then ⟨"STORE", 5, false, true, true, false, true, true⟩
      else if nextTopTwoBits = 1 then ⟨"STOREIN1", 8, false, true, true, false, true, true⟩
      else ⟨"STOREIN2", 8, false, true, true, false, true, true⟩
  else if topTwoBits = 0 then
    let nextTopFourBits := code / 2 ^ 26 % 16
    if nextTopFourBits = 2 then ⟨"SUBI", 4, false, true, true, false, false, true⟩
    else if nextTopFourBits = 3 then ⟨"ADDI", 4, false, true, true, false, false, true⟩
    else if nextTopFourBits = 4 then ⟨"OPLUSI", 5, false, true, true, true, true, true⟩
    else if nextTopFourBits = 5 then ⟨"ORI", 3, false, true, true, true, true, true⟩
    else if nextTopFourBits = 6 then ⟨"ANDI", 4, false, true, true, true, true, true⟩
    else if nextTopFourBits = 10 then ⟨"SUB", 3, false, true, true, false, false, true⟩
    else if nextTopFourBits = 11 then ⟨"ADD", 3, false, true, true, false, false, true⟩
    else if nextTopFourBits = 12 then ⟨"OPLUS", 5, false, true, true, true, true, true⟩
    else if nextTopFourBits = 13 then ⟨"OR", 2, false, true, true, true, true, true⟩
    else if nextTopFourBits = 14 then ⟨"AND", 3, false, true, true, true, true, true⟩
    else ⟨"ILLEGAL", 6, false, false, false, false, true, false⟩
  else
    let nextTopThreeBits := code / 2 ^ 27 % 8
    if nextTopThreeBits = 0 then ⟨"NOP", 3, false, false, true, false, false, true⟩
    else if nextTopThreeBits = 1 then ⟨"JUMP>", 5, false, false, true, false, false, true⟩
    else if nextTopThreeBits = 2 then ⟨"JUMP=", 6, false, false, true, false, false, true⟩
    else if nextTopThreeBits = 3 then ⟨"JUMP>=", 6, false, false, true, false, false, true⟩
    else if nextTopThreeBits = 4 then ⟨"JUMP<", 5, false, false, true, false, false, true⟩
    else if nextTopThreeBits = 5 then ⟨"JUMP!=", 6, false, false, true, false, false, true⟩
    else if nextTopThreeBits = 0 then ⟨"JUMP<=", 6, false, false, true, false, false, true⟩
    else ⟨"JUMP", 4, false, false, true, false, false, true⟩

/-- The register names over the two bit register codes. -/
def regName : Nat → String
  | 0 => "PC"
  | 1 => "IN1"
  | 2 => "IN2"
  | _ => "ACC"

/-- disassemble_reti_code of the disreti.h copy embedded in emreti.c,
under NDEBUG semantics (the default build defines NDEBUG, so violated
assertions are ignored).  Both the source register and the destination
register are taken from bits 27..26 of the word: the destination block
at line 1314 reads code >> 26 instead of code >> 24.  Returns the
legality flag together with the printed text. -/
def disassembleRetiCode (code : Nat) : Bool × String :=
  let d := classifyRetiCode code
  let buf := mcopy d.instruction d.len
  let buf :=
    if d.decodeSource then
      buf ++ [' '] ++ (regName (code / 2 ^ 26 % 4)).toList
    else buf
  let buf :=
    if d.decodeDestination then
      buf ++ [' '] ++ (regName (code / 2 ^ 26 % 4)).toList
    else buf
  let buf :=
    if d.decodeImmediate then
      let imm := code % 2 ^ 24
      let immStr :=
        if d.hexadecimal then "0x" ++ hexString imm
        else if d.positive then toString imm
        else toString (signed24 imm)
      buf ++ [' '] ++ immStr.toList
    else buf
  (d.res, cString buf)

/- ------------------------------------------------------------------ -/
/- The emulator loop of emreti.c (second main function).               -/
/- ------------------------------------------------------------------ -/

/-- Two to the 32, the modulus of 32-bit unsigned arithmetic and the
default CAPACITY of the emulator. -/
def two32 : Nat := 4294967296

/-- 32-bit unsigned addition. -/
def add32 (a b : Nat) : Nat := (a + b) % two32

/-- 32-bit unsigned subtraction, for a second operand below 2 ^ 32. -/
def sub32 (a b : Nat) : Nat := (a + (two32 - b)) % two32

/-- A 32-bit word read through an int cast. -/
def toSigned32 (x : Nat) : Int :=
  if 2147483648 ≤ x then (x : Int) - 4294967296 else (x : Int)

/-- Sign extension of the 24-bit immediate into a 32-bit word: the
extension byte 0xff000000 is ored in when bit 23 of the immediate is
set. -/
def signExt24 (imm : Nat) : Nat :=
  if imm / 2 ^ 23 &&& 1 = 1 then 0xff000000 ||| imm else imm

/-- Architectural and shadow state of the emulator: the code image list
(shadow.code is its length), the sparse data memory with its validity
bits, the high water mark shadow.data, and the four registers. -/
structure Reti where
  code : List Nat
  data : Nat → Nat
  valid : Nat → Bool
  dataHi : Nat
  PC : Nat
  ACC : Nat
  IN1 : Nat
  IN2 : Nat

/-- The per instruction quantities computed by the decode and execute
switch of the emulator before the writes are applied. -/
structure Dispatch where
  result : Nat
  Dwrite : Bool
  Mwrite : Bool
  address : Nat
  pcNext : Nat
  deriving Repr

/-- The dispatch with every default in place: zero result, no register
and no memory write, PC advancing by one. -/
def defaultDispatch (pc : Nat) : Dispatch :=
  ⟨0, false, false, 0, add32 pc 1⟩

/-- The decode and execute switch of the emulator loop in emreti.c
(lines 871 to 1094) for the instruction word I.  A compute subcode
outside the ten legal ones matches no case of the inner switch, so every
default stays in place and the word acts as a no op.  The warning for a
read of invalid data is diagnostic output only and does not change the
state, so memory reads are modelled as plain reads. -/
def dispatch (s : Reti) (I : Nat) : Dispatch :=
  let PC := s.PC
  let imm := I % 2 ^ 24
  let signedImm := signExt24 imm
  let S :=
    if I / 2 ^ 26 % 4 = 0 then PC
    else if I / 2 ^ 26 % 4 = 1 then s.IN1
    else if I / 2 ^ 26 % 4 = 2 then s.IN2
    else s.ACC
  let D :=
    if I / 2 ^ 24 % 4 = 0 then PC
    else if I / 2 ^ 24 % 4 = 1 then s.IN1
    else if I / 2 ^ 24 % 4 = 2 then s.IN2
    else s.ACC
  let d0 := defaultDispatch PC
  if I / 2 ^ 30 = 1 then
    if I / 2 ^ 28 = 4 then
      { d0 with result := s.data imm, Dwrite := true, address := imm }
    else if I / 2 ^ 28 = 5 then
      let a := add32 s.IN1 imm
      { d0 with result := s.data a, Dwrite := true, address := a }
    else if I / 2 ^ 28 = 6 then
      let a := add32 s.IN2 imm
      { d0 with result := s.data a, Dwrite := true, address := a }
    else
      { d0 with result := imm, Dwrite := true }
  else if I / 2 ^ 30 = 2 then
    if I / 2 ^ 28 = 8 then
      { d0 with result := s.ACC, Mwrite := true, address := imm }
    else if I / 2 ^ 28 = 9 then
      { d0 with result := s.ACC, Mwrite := true, address := add32 s.IN1 imm }
    else if I / 2 ^ 28 = 10 then
      { d0 with result := s.ACC, Mwrite := true, address := add32 s.IN2 imm }
    else
      { d0 with result := S, Dwrite := true }
  else if I / 2 ^ 30 = 0 then
    if I / 2 ^ 26 = 2 then { d0 with result := sub32 D signedImm, Dwrite := true }
    else if I / 2 ^ 26 = 3 then { d0 with result := add32 D signedImm, Dwrite := true }
    else if I / 2 ^ 26 = 4 then { d0 with result := D ^^^ imm, Dwrite := true }
    else if I / 2 ^ 26 = 5 then { d0 with result := D ||| imm, Dwrite := true }
    else if I / 2 ^ 26 = 6 then { d0 with result := D &&& imm, Dwrite := true }
    else if I / 2 ^ 26 = 10 then
      { d0 with result := sub32 D (s.data imm), Dwrite := true, address := imm }
    else if I / 2 ^ 26 = 11 then
      { d0 with result := add32 D (s.data imm), Dwrite := true, address := imm }
    else if I / 2 ^ 26 = 12 then
      { d0 with result := D ^^^ s.data imm, Dwrite := true, address := imm }
    else if I / 2 ^ 26 = 13 then
      { d0 with result := D ||| s.data imm, Dwrite := true, address := imm }
    else if I / 2 ^ 26 = 14 then
      { d0 with result := D &&& s.data imm, Dwrite := true, address := imm }
    else d0
  else
    let taken : Bool :=
      if I / 2 ^ 27 = 25 then decide (0 < toSigned32 s.ACC)
      else if I / 2 ^ 27 = 26 then decide (toSigned32 s.ACC = 0)
      else if I / 2 ^ 27 = 27 then decide (0 ≤ toSigned32 s.ACC)
      else if I / 2 ^ 27 = 28 then decide (toSigned32 s.ACC < 0)
      else if I / 2 ^ 27 = 29 then decide (toSigned32 s.ACC ≠ 0)
      else if I / 2 ^ 27 = 30 then decide (toSigned32 s.ACC ≤ 0)
      else if I / 2 ^ 27 = 31 then true
      else false
    if taken then { d0 with pcNext := add32 PC signedImm } else d0

/-- The destination register selected by the two bit code receives the
result; the PC slot is handled in applyStep, where the final PC
assignment delivers the same value. -/
def writeRegister (s : Reti) (dIdx : Nat) (result : Nat) : Reti :=
  if dIdx = 0 then s
  else if dIdx = 1 then { s with IN1 := result }
  else if dIdx = 2 then { s with IN2 := result }
  else { s with ACC := result }

/-- The memory write block (emreti.c lines 1130 to 1145): a write to an
address not yet valid marks it valid and raises the high water mark when
the address reaches it, then the word is stored.  Writing to the PC
register is handled in applyStep: the register itself keeps its old
content there because the final PC assignment overwrites it with the
redirected next PC, which equals the result. -/
def writeMemory (s : Reti) (address result : Nat) : Reti :=
  let s1 :=
    if s.valid address then s
    else
      { s with
        valid := fun a => if a = address then true else s.valid a,
        dataHi := if s.dataHi ≤ address then address + 1 else s.dataHi }
  { s1 with data := fun a => if a = address then result else s1.data a }

/-- The write phase at the tail of the emulator loop (emreti.c lines
1111 to 1152): the destination register is written first, and a write to
the PC register redirects the next PC to the result; then the memory
write is applied; finally PC receives its next value.  The capacity test
of the source never fires, because with the default capacity of 2 ^ 32
every 32-bit address lies below it. -/
def applyStep (s : Reti) (dIdx : Nat) (d : Dispatch) : Reti :=
  let s1 := if d.Dwrite then writeRegister s dIdx d.result else s
  let pcNext := if d.Dwrite ∧ dIdx = 0 then d.result else d.pcNext
  let s2 := if d.Mwrite then writeMemory s1 d.address d.result else s1
  { s2 with PC := pcNext }

/-- One full iteration body of the emulator loop for a state whose PC
lies inside the code image: fetch the word, dispatch, apply the
writes. -/
def execInstr (s : Reti) : Reti :=
  let I := s.code.getD s.PC 0
  applyStep s (I / 2 ^ 24 % 4) (dispatch s I)

/-- How a run of the emulator loop ended.  reachedEnd is the silent stop
with PC exactly at the code length; undefinedCode is the stop that also
prints the stopping at undefined code warning; selfLoop is the stop
taken after executing an instruction whose next PC equals its own
address.  These three exits are the only ways the loop ends and all
reach the final data dump with process exit status 0. -/
inductive Halt where
  | reachedEnd
  | undefinedCode
  | selfLoop
  deriving DecidableEq, Repr

/-- The emulator loop of emreti.c with fuel; none means the fuel ran out
with the machine still running. -/
def run : Nat → Reti → Option (Reti × Halt)
  | 0, _ => none
  | fuel + 1, s =>
    if s.code.length ≤ s.PC then
      some (s, if s.PC = s.code.length then Halt.reachedEnd else Halt.undefinedCode)
    else
      let s1 := execInstr s
      if s1.PC = s.PC then some (s1, Halt.selfLoop)
      else run fuel s1

/- ------------------------------------------------------------------ -/
/- Command line argument handling.                                     -/
/- ------------------------------------------------------------------ -/

/-- Outcome of the command line loops: print usage and exit, reject an
option, reject a third path, or settle on up to two positional paths. -/
inductive ArgsOutcome where
  | help
  | invalidOption (arg : String)
  | tooMany (arg : String)
  | files (first second : Option String)
  deriving DecidableEq, Repr

/-- Whether the first character of an argument is a dash, the arg[0]
test of the C sources; an empty argument starts with NUL there. -/
def startsWithDash (a : String) : Bool :=
  match a.toList with
  | '-' :: _ => true
  | _ => false

/-- Whether an argument is a dash followed by at least one more
character, the combined arg[0] and arg[1] test of decbin.c. -/
def isDashOption (a : String) : Bool :=
  match a.toList with
  | '-' :: _ :: _ => true
  | _ => false

/-- The argument loop of asreti.c (lines 132 to 143): after the help
flags, any argument whose first character is a dash, including the lone
dash itself, is rejected as an invalid option; extra positional
arguments beyond the two paths are silently ignored. -/
def asretiArgs : List String → Option String → Option String → ArgsOutcome
  | [], p1, p2 => .files p1 p2
  | a :: rest, p1, p2 =>
    if a = "-h" ∨ a = "--help" then .help
    else if startsWithDash a then .invalidOption a
    else if p1.isNone then asretiArgs rest (some a) p2
    else if p2.isNone then asretiArgs rest p1 (some a)
    else asretiArgs rest p1 p2

/-- The argument loop of decbin.c (lines 81 to 95); enchex, disreti and
the emulator of emreti.c use the same dash test requiring a second
character, so a lone dash is accepted as a positional argument. -/
def stdioArgs : List String → Option String → Option String → ArgsOutcome
  | [], p1, p2 => .files p1 p2
  | a :: rest, p1, p2 =>
    if a = "-h" ∨ a = "--help" then .help
    else if isDashOption a then .invalidOption a
    else if p1.isNone then stdioArgs rest (some a) p2
    else if p2.isNone then stdioArgs rest p1 (some a)
    else .tooMany a

/-- Path normalization of decbin, enchex, disreti and emreti: a missing
or lone dash positional argument selects the standard stream name. -/
def resolveStdio (p : Option String) (defaultName : String) : String :=
  match p with
  | none => defaultName
  | some a => if a = "-" then defaultName else a

/-- Input selection of asreti.c (lines 147 to 154): only a missing
argument selects the standard input; a lone dash never reaches this
point because the argument loop has already rejected it. -/
def asretiInputName (p : Option String) : String :=
  match p with
  | none => "<stdin>"
  | some a => a

/- ------------------------------------------------------------------ -/
/- Auxiliary definitions for the theorems.                             -/
/- ------------------------------------------------------------------ -/

/-- The ten legal compute class subcodes of section 3 of the spec. -/
def legalComputeSubcodes : List Nat := [2, 3, 4, 5, 6, 10, 11, 12, 13, 14]

/-- The value of a run of decimal digits accumulated from i: the fold
the accumulation loop computes when no overflow check fires. -/
def decFrom (i : Nat) (ds : List Char) : Nat :=
  ds.foldl (fun a c => a * 10 + digitVal c) i

/-- The one word image containing only the illegal word 0x00000000. -/
def illegalImage : Reti :=
  { code := [0], data := fun _ => 0, valid := fun _ => false, dataHi := 0,
    PC := 0, ACC := 0, IN1 := 0, IN2 := 0 }

/-- The one instruction image of a JUMP 0 self loop: the word 0xFC000000
of scenario 4 of the spec. -/
def selfJumpImage : Reti :=
  { code := [0xFC000000], data := fun _ => 0, valid := fun _ => false, dataHi := 0,
    PC := 0, ACC := 0, IN1 := 0, IN2 := 0 }

/-- A state resting exactly at the end of its one word code image. -/
def atEndImage : Reti :=
  { code := [0xC0000000], data := fun _ => 0, valid := fun _ => false, dataHi := 0,
    PC := 1, ACC := 0, IN1 := 0, IN2 := 0 }

/-- A state that jumped strictly past its one word code image. -/
def pastEndImage : Reti :=
  { code := [0xC0000000], data := fun _ => 0, valid := fun _ => false, dataHi := 0,
    PC := 5, ACC := 0, IN1 := 0, IN2 := 0 }

/-- A STORE 5 image with accumulator 7 and one valid data word at
address 9. -/
def storeImage : Reti :=
  { code := [0x80000005], data := fun _ => 0, valid := fun a => a == 9, dataHi := 10,
    PC := 0, ACC := 7, IN1 := 0, IN2 := 0 }

/- ------------------------------------------------------------------ -/
/- Helper lemmas.                                                      -/
/- ------------------------------------------------------------------ -/

theorem decFrom_cons (i : Nat) (c : Char) (cs : List Char) :
    decFrom i (c :: cs) = decFrom (i * 10 + digitVal c) cs := rfl

theorem le_decFrom (ds : List Char) (i : Nat) : i ≤ decFrom i ds := by
  induction ds generalizing i with
  | nil => exact le_refl i
  | cons c cs ih =>
    rw [decFrom_cons]
    exact le_trans (by omega) (ih (i * 10 + digitVal c))

/-- When every character of ds is a digit and the accumulated value
stays within the bound, the accumulation loop consumes all of ds and
stops at the closing newline with the folded value. -/
theorem accDecimal_digits (maxImm : Nat) (ds : List Char) (i : Nat)
    (hd : ∀ c ∈ ds, c.isDigit = true) (hb : decFrom i ds ≤ maxImm) :
    accDecimal maxImm i (ds ++ ['\n']) = .ok (decFrom i ds, some '\n', []) := by
  induction ds generalizing i with
  | nil =>
    simp only [List.nil_append, decFrom, List.foldl_nil]
    rfl
  | cons c cs ih =>
    have hc : c.isDigit = true := hd c (List.mem_cons_self c cs)
    have hcr : ¬ c = '\r' := by
      intro h
      rw [h] at hc
      exact absurd hc (by decide)
    have hrest : ∀ x ∈ cs, x.isDigit = true := fun x hx => hd x (List.mem_cons_of_mem c hx)
    rw [decFrom_cons] at hb ⊢
    have hval : i * 10 + digitVal c ≤ maxImm := le_trans (le_decFrom cs _) hb
    have hq1 : ¬ maxImm / 10 < i := by omega
    have hq2 : ¬ maxImm - digitVal c < i * 10 := by omega
    show accDecimal maxImm i (c :: (cs ++ ['\n'])) = _
    rw [accDecimal.eq_def]
    dsimp only
    rw [if_neg hcr, if_pos hc, if_neg hq1, if_neg hq2]
    exact ih _ hrest hb

theorem asretiLoop_nil (fuel : Nat) : asretiLoop (fuel + 1) [] = .ok [] := rfl

theorem asretiLoop_nil_pos (fuel : Nat) (h : 0 < fuel) : asretiLoop fuel [] = .ok [] := by
  cases fuel with
  | zero => omega
  | succ n => rfl

/-- Unfolding of the main loop on a line starting with S. -/
theorem asretiLoop_S (fuel : Nat) (cs : List Char) :
    asretiLoop (fuel + 1) ('S' :: cs) =
      match mnemonicS cs with
      | .error e => .error e
      | .ok m =>
        match finishInstruction m with
        | .error e => .error e
        | .ok (code, cs1) =>
          match asretiLoop fuel cs1 with
          | .error e => .error e
          | .ok ws => .ok (code :: ws) := rfl

/-- The SUBI branch of the mnemonic trie on its concrete suffix. -/
theorem mnemonicS_subi (cs : List Char) :
    mnemonicS ('U' :: 'B' :: 'I' :: ' ' :: cs) =
      .ok ⟨SUBI, false, true, true, some ' ', cs⟩ := rfl

theorem writeRegister_valid (s : Reti) (dIdx result : Nat) :
    (writeRegister s dIdx result).valid = s.valid := by
  unfold writeRegister
  split_ifs <;> rfl

theorem writeRegister_dataHi (s : Reti) (dIdx result : Nat) :
    (writeRegister s dIdx result).dataHi = s.dataHi := by
  unfold writeRegister
  split_ifs <;> rfl

theorem writeMemory_valid_mono (s : Reti) (address result a : Nat)
    (h : s.valid a = true) : (writeMemory s address result).valid a = true := by
  unfold writeMemory
  by_cases h1 : s.valid address = true
  · rw [if_pos h1]
    exact h
  · rw [if_neg h1]
    show (if a = address then true else s.valid a) = true
    split_ifs with h2
    · rfl
    · exact h

theorem writeMemory_dataHi_mono (s : Reti) (address result : Nat) :
    s.dataHi ≤ (writeMemory s address result).dataHi := by
  unfold writeMemory
  by_cases h1 : s.valid address = true
  · rw [if_pos h1]
  · rw [if_neg h1]
    show s.dataHi ≤ if s.dataHi ≤ address then address + 1 else s.dataHi
    split_ifs with h2
    · omega
    · exact le_refl _

theorem or_or_self (a b : Nat) : a ||| b ||| b = a ||| b := by
  rw [Nat.or_assoc, Nat.or_self]

/-- Evaluation of the line tail ACC -digits for a SUBI line: the
destination parser yields ACC, the negative immediate is accumulated and
stored as the complement plus one masked to 24 bits, and the line ends
at the newline.  The double or of the immediate mirrors the source. -/
theorem finishInstruction_subi_neg (d : Char) (rest : List Char) (n : Nat)
    (hd : d.isDigit = true) (h0 : ¬ d = '0')
    (hcr : ¬ d = '\r')
    (hacc : accDecimal 0x800000 (digitVal d) (rest ++ ['\n']) = .ok (n, some '\n', [])) :
    finishInstruction ⟨SUBI, false, true, true, some ' ',
        'A' :: 'C' :: 'C' :: ' ' :: '-' :: d :: (rest ++ ['\n'])⟩ =
      .ok (SUBI ||| 3 <<< 24 |||
        (((0xffffffff - n) + 1) % 4294967296 &&& 0xffffff) |||
        (((0xffffffff - n) + 1) % 4294967296 &&& 0xffffff), []) := by
  simp [finishInstruction, parseDstReg, expectChars, readChar, skipWS, skipWSList,
    skipComment, Bind.bind, Except.bind, pure, Except.pure, hd, h0, hcr, hacc]

theorem applyStep_valid_mono (s : Reti) (dIdx : Nat) (d : Dispatch) (a : Nat)
    (h : s.valid a = true) : (applyStep s dIdx d).valid a = true := by
  unfold applyStep
  by_cases hw : d.Dwrite <;> by_cases hm : d.Mwrite <;> simp only [hw, hm, if_true, if_false]
  · exact writeMemory_valid_mono _ _ _ _ ((writeRegister_valid s dIdx d.result).symm ▸ h)
  · exact (writeRegister_valid s dIdx d.result).symm ▸ h
  · exact writeMemory_valid_mono _ _ _ _ h
  · exact h

theorem applyStep_dataHi_mono (s : Reti) (dIdx : Nat) (d : Dispatch) :
    s.dataHi ≤ (applyStep s dIdx d).dataHi := by
  unfold applyStep
  by_cases hw : d.Dwrite <;> by_cases hm : d.Mwrite <;> simp only [hw, hm, if_true, if_false]
  · exact le_trans (le_of_eq (writeRegister_dataHi s dIdx d.result).symm)
      (writeMemory_dataHi_mono _ _ _)
  · exact le_of_eq (writeRegister_dataHi s dIdx d.result).symm
  · exact writeMemory_dataHi_mono _ _ _
  · exact le_refl _

theorem execInstr_valid_mono (s : Reti) (a : Nat) (h : s.valid a = true) :
    (execInstr s).valid a = true :=
  applyStep_valid_mono s _ _ a h

theorem execInstr_dataHi_mono (s : Reti) : s.dataHi ≤ (execInstr s).dataHi :=
  applyStep_dataHi_mono s _ _

/- ------------------------------------------------------------------ -/
/- Claim theorems.                                                     -/
/- ------------------------------------------------------------------ -/

/-- C1: evaluation at the failing input.  The assembler encodes the line
STORE 5 as the word 0x80000005; disassemble_reti_code renders that word
as STOREIN2 PC 5, because the store class branch divides by 2 ^ 28
without masking, so its tests for 3, 0 and 1 can never succeed and every
class 10 word takes the STOREIN2 row with the destination flag left on;
and feeding that text back to the assembler is a parse error, so neither
half of the claimed round trip holds on this legal instruction. -/
theorem store_roundtrip_broken :
    asreti "STORE 5\n" = Except.ok [0x80000005] ∧
      disassembleRetiCode 0x80000005 = (true, "STOREIN2 PC 5") ∧
      asreti "STOREIN2 PC 5\n" = Except.error AsmErr.invalidImmediate := by
  refine ⟨?_, ?_, ?_⟩ <;> rfl

/-- C2 counterexample: emulating the single word 0x00000000 does not
abort.  The word executes as a no op, PC advances to 1, and the run ends
through the silent reachedEnd exit, the loop exit that prints no
diagnostic and leads to the normal data dump and process exit status 0;
no exit of the loop reports an illegal instruction. -/
theorem illegal_word_runs_to_normal_halt :
    (run 2 illegalImage).map (fun p => (p.1.PC, p.2)) =
      some (1, Halt.reachedEnd) := rfl

/-- C2 amended: a class 00 word whose subcode is not one of the ten
legal compute subcodes matches no case of the compute switch, which has
no default, so the emulator executes it as a no op: no register other
than PC and no memory word changes, no diagnostic is possible, and PC
advances by one. -/
theorem illegal_compute_subcode_is_noop (s : Reti)
    (hclass : s.code.getD s.PC 0 / 2 ^ 30 = 0)
    (hillegal : s.code.getD s.PC 0 / 2 ^ 26 ∉ legalComputeSubcodes) :
    execInstr s = { s with PC := add32 s.PC 1 } := by
  simp only [legalComputeSubcodes, List.mem_cons, List.not_mem_nil, or_false, not_or] at hillegal
  obtain ⟨h2, h3, h4, h5, h6, h10, h11, h12, h13, h14⟩ := hillegal
  have h30a : ¬ s.code.getD s.PC 0 / 2 ^ 30 = 1 := by omega
  have h30b : ¬ s.code.getD s.PC 0 / 2 ^ 30 = 2 := by omega
  simp only [execInstr, dispatch, defaultDispatch]
  rw [if_neg h30a, if_neg h30b, if_pos hclass]
  rw [if_neg h2, if_neg h3, if_neg h4, if_neg h5, if_neg h6, if_neg h10,
    if_neg h11, if_neg h12, if_neg h13, if_neg h14]
  simp only [applyStep]
  rfl

/-- Witness for the amended C2 claim at the concrete word 0x00000000 of
the counterexample image. -/
theorem illegal_compute_subcode_is_noop_witness :
    illegalImage.code.getD illegalImage.PC 0 / 2 ^ 30 = 0 ∧
      illegalImage.code.getD illegalImage.PC 0 / 2 ^ 26 ∉ legalComputeSubcodes ∧
      execInstr illegalImage = { illegalImage with PC := add32 illegalImage.PC 1 } :=
  ⟨by decide, by decide,
    illegal_compute_subcode_is_noop illegalImage (by decide) (by decide)⟩

/-- C3: the assembler rejects JUMP< and JUMP<= with a parse error
instead of encoding them: inside the branch for a leading comparison
character the lookahead still holds that character when it is compared
against blank and equals sign, so both comparisons fail and the shared
fallthrough raises invalid instruction; the sibling JUMP> branch, which
does read a further character, assembles fine. -/
theorem jump_less_mnemonics_rejected :
    asreti "JUMP< 1\n" = Except.error AsmErr.invalidInstruction ∧
      asreti "JUMP<= 1\n" = Except.error AsmErr.invalidInstruction ∧
      asreti "JUMP> 1\n" = Except.ok [0xC8000001] := by
  refine ⟨?_, ?_, ?_⟩ <;> rfl

/-- C4: disassemble_reti_code takes the destination register from bits
27..26 instead of bits 25..24.  The word 0x7300002A carries LOADI with
destination code 3 (ACC) in bits 25..24, but the destination block reads
code >> 26, whose low two bits are 0 here, so the rendered text names PC
rather than ACC. -/
theorem disassemble_destination_uses_bits_27_26 :
    disassembleRetiCode 0x7300002A = (true, "LOADI PC 42") ∧
      0x7300002A / 2 ^ 24 % 4 = 3 ∧ 0x7300002A / 2 ^ 26 % 4 = 0 := by
  refine ⟨?_, ?_, ?_⟩ <;> rfl

/-- C5: a hexadecimal immediate is rejected by the assembler.  The
immediate parser of asreti.c accepts only decimal digits: on the input
0xbc4285 the accumulation stops at the letter x, which then fails the
terminator test, raising invalid immediate; the same value written in
decimal assembles to the expected word.  The rejected line is the one
the README feeds through asreti in its documented pipeline. -/
theorem hex_immediate_rejected :
    asreti "OPLUSI ACC 0xbc4285\n" = Except.error AsmErr.invalidImmediate ∧
      asreti "OPLUSI ACC 12337797\n" = Except.ok [0x13BC4285] := by
  refine ⟨?_, ?_⟩ <;> rfl

/-- C6: an instruction that computes its own address as the next PC is
executed exactly once: the loop returns the state produced by that
single execution together with the selfLoop exit, so its register and
memory effects are applied once and the instruction is never executed a
second time. -/
theorem self_loop_halts_after_one_step (s : Reti) (fuel : Nat)
    (hin : s.PC < s.code.length) (hloop : (execInstr s).PC = s.PC) :
    run (fuel + 1) s = some (execInstr s, Halt.selfLoop) := by
  have h1 : ¬ s.code.length ≤ s.PC := Nat.not_le.mpr hin
  simp only [run]
  rw [if_neg h1, if_pos hloop]

/-- Witness for C6: the one word self jump image of scenario 4. -/
theorem self_loop_halts_after_one_step_witness :
    selfJumpImage.PC < selfJumpImage.code.length ∧
      (execInstr selfJumpImage).PC = selfJumpImage.PC ∧
      run 9 selfJumpImage = some (execInstr selfJumpImage, Halt.selfLoop) :=
  ⟨by decide, by decide,
    self_loop_halts_after_one_step selfJumpImage 8 (by decide) (by decide)⟩

/-- C7: at the top of each iteration, a PC exactly at the code length
ends the run through the silent reachedEnd exit, while a PC strictly
beyond it ends the run through the undefinedCode exit that prints the
stopping at undefined code warning. -/
theorem halt_at_code_boundary (s : Reti) (fuel : Nat) :
    (s.PC = s.code.length → run (fuel + 1) s = some (s, Halt.reachedEnd)) ∧
      (s.code.length < s.PC → run (fuel + 1) s = some (s, Halt.undefinedCode)) := by
  constructor
  · intro h
    have h1 : s.code.length ≤ s.PC := le_of_eq h.symm
    simp only [run]
    rw [if_pos h1, if_pos h]
  · intro h
    have h1 : s.code.length ≤ s.PC := le_of_lt h
    have h2 : ¬ s.PC = s.code.length := by omega
    simp only [run]
    rw [if_pos h1, if_neg h2]

/-- Witness for C7: a state exactly at the end of its image and a state
past it. -/
theorem halt_at_code_boundary_witness :
    run 1 atEndImage = some (atEndImage, Halt.reachedEnd) ∧
      run 1 pastEndImage = some (pastEndImage, Halt.undefinedCode) :=
  ⟨(halt_at_code_boundary atEndImage 0).1 (by decide),
    (halt_at_code_boundary pastEndImage 0).2 (by decide)⟩

/-- C8: for every accepted negative decimal immediate with magnitude n,
0 < n and n at most 2 ^ 23, the 24-bit immediate field of the emitted
word is the 32-bit complement of n plus one masked to 24 bits; in
particular the line SUBI ACC -1 assembles to the word 0x0BFFFFFF, whose
little endian bytes are ff ff ff 0b. -/
theorem negative_immediate_encoding (ds : List Char) (n : Nat)
    (hne : ds ≠ [])
    (hdig : ∀ c ∈ ds, c.isDigit = true)
    (hzero : ds.head? ≠ some '0')
    (hval : decFrom 0 ds = n)
    (hpos : 0 < n) (hmax : n ≤ 0x800000) :
    asreti ("SUBI ACC -" ++ ds.asString ++ "\n") =
        Except.ok [SUBI ||| 3 <<< 24 |||
          (((0xffffffff - n) + 1) % 4294967296 &&& 0xffffff)] ∧
      (asreti "SUBI ACC -1\n").map (fun ws => ws.map leBytes) =
        Except.ok [[0xff, 0xff, 0xff, 0x0b]] := by
  refine ⟨?_, rfl⟩
  obtain ⟨d, rest, rfl⟩ : ∃ d rest, ds = d :: rest := by
    cases ds with
    | nil => exact absurd rfl hne
    | cons d rest => exact ⟨d, rest, rfl⟩
  have hd : d.isDigit = true := hdig d (List.mem_cons_self d rest)
  have h0 : ¬ d = '0' := fun h => hzero (by simp [h])
  have hcr : ¬ d = '\r' := by
    intro h
    rw [h] at hd
    exact absurd hd (by decide)
  have hrest : ∀ c ∈ rest, c.isDigit = true := fun c hc => hdig c (List.mem_cons_of_mem d hc)
  have hn : decFrom (digitVal d) rest = n := by
    rw [← hval, decFrom_cons]
    norm_num
  have hacc := accDecimal_digits 0x800000 rest (digitVal d) hrest (by rw [hn]; exact hmax)
  rw [hn] at hacc
  have hlen : 0 < ("SUBI ACC -" ++ (d :: rest).asString ++ "\n").length := by
    rw [show ("SUBI ACC -" ++ (d :: rest).asString ++ "\n").length
      = (("SUBI ACC -".toList ++ (d :: rest)) ++ ['\n']).length from rfl]
    simp
  rw [asreti]
  rw [show ("SUBI ACC -" ++ (d :: rest).asString ++ "\n").toList =
      'S' :: ('U' :: 'B' :: 'I' :: ' ' :: 'A' :: 'C' :: 'C' :: ' ' :: '-' :: d ::
        (rest ++ ['\n'])) by
    rw [show ("SUBI ACC -" ++ (d :: rest).asString ++ "\n").toList
      = ("SUBI ACC -".toList ++ (d :: rest)) ++ ['\n'] from rfl, List.append_assoc]
    rfl]
  rw [asretiLoop_S]
  rw [mnemonicS_subi]
  dsimp only
  rw [finishInstruction_subi_neg d rest n hd h0 hcr hacc]
  dsimp only
  rw [asretiLoop_nil_pos _ hlen]
  rw [or_or_self]

/-- Witness for C8: the digit string 1, giving magnitude 1 and the word
0x0BFFFFFF with bytes ff ff ff 0b. -/
theorem negative_immediate_encoding_witness :
    asreti ("SUBI ACC -" ++ (['1'] : List Char).asString ++ "\n") =
        Except.ok [SUBI ||| 3 <<< 24 |||
          (((0xffffffff - 1) + 1) % 4294967296 &&& 0xffffff)] ∧
      asreti "SUBI ACC -1\n" = Except.ok [0x0BFFFFFF] ∧
      leBytes 0x0BFFFFFF = [0xff, 0xff, 0xff, 0x0b] :=
  ⟨(negative_immediate_encoding ['1'] 1 (by decide) (by decide) (by decide) (by decide)
      (by decide) (by decide)).1,
    by rfl, by rfl⟩

/-- C9: over any terminated run of the emulator, a data address that is
valid at the start is still valid at the end, and the high water mark
never decreases; the only writes to the shadow state set a validity bit
or raise the mark. -/
theorem validity_and_high_water_monotone (fuel : Nat) (s t : Reti) (h : Halt)
    (hrun : run fuel s = some (t, h)) :
    (∀ a, s.valid a = true → t.valid a = true) ∧ s.dataHi ≤ t.dataHi := by
  induction fuel generalizing s with
  | zero => simp [run] at hrun
  | succ n ih =>
    simp only [run] at hrun
    by_cases hend : s.code.length ≤ s.PC
    · rw [if_pos hend] at hrun
      simp only [Option.some.injEq, Prod.mk.injEq] at hrun
      obtain ⟨rfl, -⟩ := hrun
      exact ⟨fun a ha => ha, le_refl _⟩
    · rw [if_neg hend] at hrun
      by_cases hsl : (execInstr s).PC = s.PC
      · rw [if_pos hsl] at hrun
        simp only [Option.some.injEq, Prod.mk.injEq] at hrun
        obtain ⟨rfl, -⟩ := hrun
        exact ⟨fun a ha => execInstr_valid_mono s a ha, execInstr_dataHi_mono s⟩
      · rw [if_neg hsl] at hrun
        have h2 := ih (execInstr s) hrun
        exact ⟨fun a ha => h2.1 a (execInstr_valid_mono s a ha),
          le_trans (execInstr_dataHi_mono s) h2.2⟩

/-- Witness for C9: a STORE 5 run that makes address 5 valid while the
previously valid address 9 stays valid and the mark does not drop. -/
theorem validity_and_high_water_monotone_witness :
    run 3 storeImage = some (execInstr storeImage, Halt.reachedEnd) ∧
      (storeImage.valid 9 = true → (execInstr storeImage).valid 9 = true) ∧
      storeImage.dataHi ≤ (execInstr storeImage).dataHi := by
  have hrun : run 3 storeImage = some (execInstr storeImage, Halt.reachedEnd) := rfl
  have h2 := validity_and_high_water_monotone 3 storeImage (execInstr storeImage)
    Halt.reachedEnd hrun
  exact ⟨hrun, h2.1 9, h2.2⟩

/-- C10 counterexample: the assembler command line loop rejects the lone
dash as an invalid option and dies, instead of selecting the standard
input as the claim states. -/
theorem asreti_dash_rejected :
    asretiArgs ["-"] none none = ArgsOutcome.invalidOption "-" := rfl

/-- C10 amended: decbin, enchex, disreti and the emulator accept a lone
dash as a positional argument and resolve it to the standard stream, but
asreti rejects any argument beginning with a dash, the lone dash
included, as an invalid option and exits; asreti reads the standard
input only when the assembler file argument is omitted. -/
theorem dash_argument_behaviour :
    stdioArgs ["-"] none none = ArgsOutcome.files (some "-") none ∧
      resolveStdio (some "-") "<stdin>" = "<stdin>" ∧
      asretiArgs ["-"] none none = ArgsOutcome.invalidOption "-" ∧
      asretiArgs [] none none = ArgsOutcome.files none none ∧
      asretiInputName none = "<stdin>" := by
  refine ⟨?_, ?_, ?_, ?_, ?_⟩ <;> rfl

end Reticode
